import Mathlib

/-!
Verification of the LIF-renderer raycasting core against its specification.

The definitions below are a shallow embedding, over exact rationals, of:
* the GLSL raycast kernel quoted in the repository's shader implementation
  document (`raycasting`, `readDisp`, `isMaskAround`, `taper`, `weight2`,
  the mono LDI blending snippet and the stereo occlusion reconciliation);
* the pose-transform pipeline of `RaycastPlane.ts`
  (`updateProjectorPose`, `updateProjectorPoses`) and the shader-side
  axis-flip (`flipZ * transpose_m(uViewRotation) * flipZ`);
* the depth+mask packing loop of `utils/textureUtils.ts`
  (`createDepthMaskTexture`).

GLSL `float` arithmetic is modelled by `ℚ`; division by zero yields `0`
(degenerate denominators are outside every claim considered here).
Textures are modelled as total functions from UV coordinates to RGBA
samples.  Sequentially mutated GLSL locals become explicit state passing.
-/

/-- A GLSL `vec2` over exact rationals. -/
structure Vec2 where
  x : ℚ
  y : ℚ
deriving DecidableEq, Repr

/-- A GLSL `vec3` over exact rationals. -/
structure Vec3 where
  x : ℚ
  y : ℚ
  z : ℚ
deriving DecidableEq, Repr

/-- A GLSL `vec4` RGBA sample over exact rationals. -/
structure Vec4 where
  r : ℚ
  g : ℚ
  b : ℚ
  a : ℚ
deriving DecidableEq, Repr

def vec2Add (u v : Vec2) : Vec2 := ⟨u.x + v.x, u.y + v.y⟩

def vec2Sub (u v : Vec2) : Vec2 := ⟨u.x - v.x, u.y - v.y⟩

/-- GLSL `v /= 2.0` on a `vec2`. -/
def vec2Half (v : Vec2) : Vec2 := ⟨v.x / 2, v.y / 2⟩

def vec3Sub (u v : Vec3) : Vec3 := ⟨u.x - v.x, u.y - v.y, u.z - v.z⟩

def vec3Add (u v : Vec3) : Vec3 := ⟨u.x + v.x, u.y + v.y, u.z + v.z⟩

def vec3Smul (s : ℚ) (v : Vec3) : Vec3 := ⟨s * v.x, s * v.y, s * v.z⟩

/-- GLSL `dot` on `vec3`. -/
def vec3Dot (u v : Vec3) : ℚ := u.x * v.x + u.y * v.y + u.z * v.z

/-- A GLSL `mat3`; field `mij` is the entry in row `i`, column `j`
(GLSL constructs `mat3` column-major, which is accounted for at each
use site). -/
structure Mat3 where
  m00 : ℚ
  m01 : ℚ
  m02 : ℚ
  m10 : ℚ
  m11 : ℚ
  m12 : ℚ
  m20 : ℚ
  m21 : ℚ
  m22 : ℚ
deriving DecidableEq, Repr

def mat3One : Mat3 := ⟨1, 0, 0, 0, 1, 0, 0, 0, 1⟩

def mat3Mul (A B : Mat3) : Mat3 :=
  ⟨A.m00 * B.m00 + A.m01 * B.m10 + A.m02 * B.m20,
   A.m00 * B.m01 + A.m01 * B.m11 + A.m02 * B.m21,
   A.m00 * B.m02 + A.m01 * B.m12 + A.m02 * B.m22,
   A.m10 * B.m00 + A.m11 * B.m10 + A.m12 * B.m20,
   A.m10 * B.m01 + A.m11 * B.m11 + A.m12 * B.m21,
   A.m10 * B.m02 + A.m11 * B.m12 + A.m12 * B.m22,
   A.m20 * B.m00 + A.m21 * B.m10 + A.m22 * B.m20,
   A.m20 * B.m01 + A.m21 * B.m11 + A.m22 * B.m21,
   A.m20 * B.m02 + A.m21 * B.m12 + A.m22 * B.m22⟩

def mat3MulVec (A : Mat3) (v : Vec3) : Vec3 :=
  ⟨A.m00 * v.x + A.m01 * v.y + A.m02 * v.z,
   A.m10 * v.x + A.m11 * v.y + A.m12 * v.z,
   A.m20 * v.x + A.m21 * v.y + A.m22 * v.z⟩

/-- GLSL `transpose_m` / matrix transpose. -/
def mat3Transpose (A : Mat3) : Mat3 :=
  ⟨A.m00, A.m10, A.m20, A.m01, A.m11, A.m21, A.m02, A.m12, A.m22⟩

def mat3Det (A : Mat3) : ℚ :=
  A.m00 * (A.m11 * A.m22 - A.m12 * A.m21)
    - A.m01 * (A.m10 * A.m22 - A.m12 * A.m20)
    + A.m02 * (A.m10 * A.m21 - A.m11 * A.m20)

/-- GLSL `inverse(mat3)` / THREE.js matrix inversion: the adjugate divided
by the determinant. -/
def mat3Inv (A : Mat3) : Mat3 :=
  let d := mat3Det A
  ⟨(A.m11 * A.m22 - A.m12 * A.m21) / d,
   (A.m02 * A.m21 - A.m01 * A.m22) / d,
   (A.m01 * A.m12 - A.m02 * A.m11) / d,
   (A.m12 * A.m20 - A.m10 * A.m22) / d,
   (A.m00 * A.m22 - A.m02 * A.m20) / d,
   (A.m02 * A.m10 - A.m00 * A.m12) / d,
   (A.m10 * A.m21 - A.m11 * A.m20) / d,
   (A.m01 * A.m20 - A.m00 * A.m21) / d,
   (A.m00 * A.m11 - A.m01 * A.m10) / d⟩

/-- GLSL `clamp(v, lo, hi) = min(max(v, lo), hi)`. -/
def clampQ (v lo hi : ℚ) : ℚ := min (max v lo) hi

/-- GLSL `smoothstep(e0, e1, x)`: Hermite interpolation of the clamped
normalized argument. -/
def smoothstep (e0 e1 x : ℚ) : ℚ :=
  let t := clampQ ((x - e0) / (e1 - e0)) 0 1
  t * t * (3 - 2 * t)

/-- Edge feathering from the shader implementation document:
`taper(uv)` multiplies a smooth rise over `[0, feathering]` and a smooth
fall over `[1 - feathering, 1]` in each axis. -/
def taper (feathering : ℚ) (uv : Vec2) : ℚ :=
  smoothstep 0 feathering uv.x * (1 - smoothstep (1 - feathering) 1 uv.x)
    * smoothstep 0 feathering uv.y * (1 - smoothstep (1 - feathering) 1 uv.y)

/-- The UV clamp inlined in the shader's `readDisp`: each axis is clamped
to `[2/iRes, 1 - 2/iRes]` to avoid boundary sampling artifacts. -/
def clampedUV (uv iRes : Vec2) : Vec2 :=
  ⟨clampQ uv.x (2 / iRes.x) (1 - 2 / iRes.x),
   clampQ uv.y (2 / iRes.y) (1 - 2 / iRes.y)⟩

/-- Shader `readDisp`: sample the red channel at the clamped UV and remap
it into the `[vMax, vMin]` inverse-depth range. -/
def readDisp (tex : Vec2 → Vec4) (uv : Vec2) (vMin vMax : ℚ) (iRes : Vec2) : ℚ :=
  (tex (clampedUV uv iRes)).r * (vMin - vMax) + vMax

/-- The shader constant `maskDilation = 1.5`. -/
def maskDilation : ℚ := 3 / 2

/-- One sample position of the dilated 3x3 mask neighborhood:
`xy + maskDilation * vec2(dx, dy) / iRes`. -/
def dilatedSamplePos (xy iRes : Vec2) (dx dy : ℚ) : Vec2 :=
  ⟨xy.x + maskDilation * dx / iRes.x, xy.y + maskDilation * dy / iRes.y⟩

/-- Whether a single dilated mask sample fails the `alpha < 0.5` test. -/
def maskSampleBad (tex : Vec2 → Vec4) (xy iRes : Vec2) (dx dy : ℚ) : Bool :=
  decide ((tex (dilatedSamplePos xy iRes dx dy)).a < 1 / 2)

/-- Shader `isMaskAround`: the nested `x`/`y` loops over `{-1, 0, 1}`
return `true` as soon as any of the nine dilated samples has alpha below
`0.5`; unrolled here as a disjunction in the loop's iteration order. -/
def isMaskAround (tex : Vec2 → Vec4) (xy iRes : Vec2) : Bool :=
  maskSampleBad tex xy iRes (-1) (-1) || maskSampleBad tex xy iRes (-1) 0
    || maskSampleBad tex xy iRes (-1) 1 || maskSampleBad tex xy iRes 0 (-1)
    || maskSampleBad tex xy iRes 0 0 || maskSampleBad tex xy iRes 0 1
    || maskSampleBad tex xy iRes 1 (-1) || maskSampleBad tex xy iRes 1 0
    || maskSampleBad tex xy iRes 1 1

/-- The nine `(dx, dy)` loop offsets of `isMaskAround`, in iteration order. -/
def maskOffsets : List (ℚ × ℚ) :=
  [(-1, -1), (-1, 0), (-1, 1), (0, -1), (0, 0), (0, 1), (1, -1), (1, 0), (1, 1)]

/-- GLSL `vec2(0.5)`: the `s1 + 0.5` recentering offset. -/
def half2 : Vec2 := ⟨1 / 2, 1 / 2⟩

/-- State of the raycast inverse-depth search across loop iterations:
the GLSL locals `invZ`, `dinvZ`, `s1`, `ds1` and the `out` parameter
`invZ2` (written on every iteration before the refinement branch). -/
structure RayState where
  invZ : ℚ
  dinvZ : ℚ
  s1 : Vec2
  ds1 : Vec2
  invZ2 : ℚ
deriving DecidableEq, Repr

/-- One iteration of the raycast search loop body: decrement `invZ` and
`s1`, sample the stored inverse depth, recompute `invZ2`, and on an
overshoot (`disp > invZ && invZ2 > 0.0`) undo the step and halve both
step sizes. -/
def rayStep (tex : Vec2 → Vec4) (invZmin invZmax : ℚ) (iRes : Vec2)
    (qs Cz : ℚ) (st : RayState) : RayState :=
  let invZn := st.invZ - st.dinvZ
  let s1n := vec2Sub st.s1 st.ds1
  let dispv := readDisp tex (vec2Add s1n half2) invZmin invZmax iRes
  let invZ2n := invZn * qs / (1 - Cz * invZn)
  if dispv > invZn ∧ invZ2n > 0 then
    ⟨invZn + st.dinvZ, st.dinvZ / 2, vec2Add s1n st.ds1, vec2Half st.ds1, invZ2n⟩
  else
    ⟨invZn, st.dinvZ, s1n, st.ds1, invZ2n⟩

/-- The raycast search: `numsteps = 40` iterations of `rayStep`, starting
from `invZ = invZmin`, `dinvZ = (invZmin - invZmax) / float(numsteps)` and
the initial `s1`/`ds1` ray-plane intersection.  `qs` is the precomputed
scalar `dot(Pzxy, s2) + Pzz` and `Cz` is `C.z`; `invZ2` starts at `0`
standing for the uninitialized GLSL `out` value, overwritten on the first
iteration. -/
def raycastSearch (tex : Vec2 → Vec4) (invZmin invZmax : ℚ) (iRes : Vec2)
    (qs Cz : ℚ) (s10 ds10 : Vec2) : RayState :=
  (rayStep tex invZmin invZmax iRes qs Cz)^[40]
    ⟨invZmin, (invZmin - invZmax) / 40, s10, ds10, 0⟩

/-- The top two rows of the homography matrix applied to `(s2, 1)`:
GLSL `Pxyxy * s2 + Pxyz`, with `Pxyxy = mat2(P[0].xy, P[1].xy)` and
`Pxyz = P[2].xy` (column-major access). -/
def homogTop (P : Mat3) (s2 : Vec2) : Vec2 :=
  ⟨P.m00 * s2.x + P.m01 * s2.y + P.m02, P.m10 * s2.x + P.m11 * s2.y + P.m12⟩

/-- The bottom row of the homography matrix applied to `(s2, 1)`:
GLSL `dot(Pzxy, s2) + Pzz`, with `Pzxy = vec2(P[0].z, P[1].z)` and
`Pzz = P[2].z`. -/
def homogBot (P : Mat3) (s2 : Vec2) : ℚ :=
  P.m20 * s2.x + P.m21 * s2.y + P.m22

/-- The state of the raycast search after the 40-iteration loop, with the
kernel's precomputation: `P = FSKR1 * inverse(FSKR2)`,
`C = FSKR1 * (C2 - C1)`, and the initial `s1`/`ds1` from the ray-plane
intersection formulas. -/
def raycastFinalState (s2 : Vec2) (FSKR2 : Mat3) (C2v : Vec3) (FSKR1 : Mat3)
    (C1v : Vec3) (iChannelDisp : Vec2 → Vec4) (invZmin invZmax : ℚ)
    (iRes : Vec2) : RayState :=
  let P := mat3Mul FSKR1 (mat3Inv FSKR2)
  let Cv := mat3MulVec FSKR1 (vec3Sub C2v C1v)
  let top := homogTop P s2
  let qs := homogBot P s2
  let dinvZ := (invZmin - invZmax) / 40
  let s10 : Vec2 :=
    ⟨Cv.x * invZmin + (1 - Cv.z * invZmin) * top.x / qs,
     Cv.y * invZmin + (1 - Cv.z * invZmin) * top.y / qs⟩
  let ds10 : Vec2 :=
    ⟨(Cv.x - Cv.z * top.x / qs) * dinvZ, (Cv.y - Cv.z * top.y / qs) * dinvZ⟩
  raycastSearch iChannelDisp invZmin invZmax iRes qs Cv.z s10 ds10

/-- Modelled from the spec: `readColor` is called by the quoted raycasting
code but its body is not among the sources; section 4.3 step 7 says
"sample RGB at `s1`", so it returns the RGB channels of the color texture
at the given UV.  No claim below depends on its value. -/
def readColor (tex : Vec2 → Vec4) (uv : Vec2) : Vec3 :=
  ⟨(tex uv).r, (tex uv).g, (tex uv).b⟩

/-- The raycast kernel: run the 40-iteration search, then accept the final
`s1` only if `abs(s1.x) < 0.5 && abs(s1.y) < 0.5 && invZ2 > 0.0`; an
accepted sample whose mask alpha at `s1 + 0.5` is below `0.5` yields
`vec4(0.0)`, an accepted unmasked sample yields the sampled color with the
tapered alpha, and a rejected sample yields `vec4(background.rgb, 0.0)`.
The unused animation parameter `t` of the GLSL signature is omitted. -/
def raycasting (s2 : Vec2) (FSKR2 : Mat3) (C2v : Vec3) (FSKR1 : Mat3)
    (C1v : Vec3) (iChannelCol iChannelDisp : Vec2 → Vec4)
    (invZmin invZmax : ℚ) (iRes : Vec2) (feathering : ℚ)
    (background : Vec4) : Vec4 :=
  let fin := raycastFinalState s2 FSKR2 C2v FSKR1 C1v iChannelDisp invZmin invZmax iRes
  if |fin.s1.x| < 1 / 2 ∧ |fin.s1.y| < 1 / 2 ∧ fin.invZ2 > 0 then
    if (iChannelDisp (vec2Add fin.s1 half2)).a < 1 / 2 then
      ⟨0, 0, 0, 0⟩
    else
      ⟨(readColor iChannelCol (vec2Add fin.s1 half2)).x,
       (readColor iChannelCol (vec2Add fin.s1 half2)).y,
       (readColor iChannelCol (vec2Add fin.s1 half2)).z,
       taper feathering (vec2Add fin.s1 half2)⟩
  else
    ⟨background.r, background.g, background.b, 0⟩

/-- A THREE.js object's world transform, restricted as in the spec to a
rotation-plus-translation affine matrix: `matrixWorld = [rot | pos]`. -/
structure Pose where
  rot : Mat3
  pos : Vec3
deriving DecidableEq, Repr

/-- The upper-left 3x3 block of `camera.matrixWorldInverse` (the inverse of
the affine `[R | t]` is `[R⁻¹ | -R⁻¹ t]`), as extracted by
`new THREE.Matrix3().setFromMatrix4(cameraMatrixInv)`. -/
def matrixWorldInverseRot (cam : Pose) : Mat3 := mat3Inv cam.rot

/-- Embeds `p.applyMatrix4(camera.matrixWorldInverse)`: the affine inverse applied
to a point, `R⁻¹ (p - t)`. -/
def matrixWorldInverseApply (cam : Pose) (p : Vec3) : Vec3 :=
  mat3MulVec (mat3Inv cam.rot) (vec3Sub p cam.pos)

/-- From `RaycastPlane.updateProjectorPose`: the projector's world position
transformed into camera space. -/
def posInCameraSpace (proj cam : Pose) : Vec3 :=
  matrixWorldInverseApply cam proj.pos

/-- From `RaycastPlane.updateProjectorPose`: the projector's world rotation
transformed into camera space, `cameraRotationInv * projectorRotationWorld`. -/
def rotationInCameraSpace (proj cam : Pose) : Mat3 :=
  mat3Mul (matrixWorldInverseRot cam) proj.rot

/-- Negation of the `z` component, as in
`uViewPosition.value.set(pos.x, pos.y, -pos.z)`. -/
def negZ (v : Vec3) : Vec3 := ⟨v.x, v.y, -v.z⟩

/-- The `uViewPosition` uniform uploaded by `updateProjectorPose`: the
camera-space position with its `z` coordinate negated once on the CPU
side. -/
def uViewPosition (proj cam : Pose) : Vec3 := negZ (posInCameraSpace proj cam)

/-- The `uViewRotation` uniform uploaded by `updateProjectorPose`: the
camera-space rotation, uploaded without any flip. -/
def uViewRotation (proj cam : Pose) : Mat3 := rotationInCameraSpace proj cam

/-- The shader constant `flipZ = mat3(1,0,0, 0,1,0, 0,0,-1)`. -/
def flipZ : Mat3 := ⟨1, 0, 0, 0, 1, 0, 0, 0, -1⟩

/-- The similarity transform `F * transpose(M) * F` demanded by the spec's
axis convention (`F = diag(1,1,-1)`). -/
def flipConj (M : Mat3) : Mat3 := mat3Mul (mat3Mul flipZ (mat3Transpose M)) flipZ

/-- The shader-side `viewRotationMatrix = flipZ * transpose_m(uViewRotation)
* flipZ` computed in the `rayCastMonoLDI` main function. -/
def viewRotationMatrix (proj cam : Pose) : Mat3 :=
  mat3Mul (mat3Mul flipZ (mat3Transpose (uViewRotation proj cam))) flipZ

/-- From `RaycastPlane.updateProjectorPoses`, stereo branch: for each of the two
projectors, upload the camera-space position with `z` negated and the
camera-space rotation unchanged; returns
`((uViewPositionL, uViewRotationL), (uViewPositionR, uViewRotationR))`. -/
def updateProjectorPosesStereo (projL projR cam : Pose) :
    (Vec3 × Mat3) × (Vec3 × Mat3) :=
  let posL := matrixWorldInverseApply cam projL.pos
  let rotL := mat3Mul (matrixWorldInverseRot cam) projL.rot
  let posR := matrixWorldInverseApply cam projR.pos
  let rotR := mat3Mul (matrixWorldInverseRot cam) projR.rot
  ((⟨posL.x, posL.y, -posL.z⟩, rotL), (⟨posR.x, posR.y, -posR.z⟩, rotR))

/-- Mono LDI blending, first step: `result.rgb *= result.a`. -/
def premultiply (v : Vec4) : Vec4 := ⟨v.r * v.a, v.g * v.a, v.b * v.a, v.a⟩

/-- Mono LDI blending, accumulation of one further layer:
`result.rgb = result.rgb + (1.0 - result.a) * layer2.a * layer2.rgb;`
`result.a = layer2.a + result.a * (1.0 - layer2.a)`. -/
def layerOver (acc layer2 : Vec4) : Vec4 :=
  ⟨acc.r + (1 - acc.a) * layer2.a * layer2.r,
   acc.g + (1 - acc.a) * layer2.a * layer2.g,
   acc.b + (1 - acc.a) * layer2.a * layer2.b,
   layer2.a + acc.a * (1 - layer2.a)⟩

/-- Mono LDI blending, final background blend:
`result.rgb = background.rgb * background.a * (1.0 - result.a) + result.rgb;`
`result.a = background.a + result.a * (1.0 - background.a)`. -/
def backgroundBlend (background acc : Vec4) : Vec4 :=
  ⟨background.r * background.a * (1 - acc.a) + acc.r,
   background.g * background.a * (1 - acc.a) + acc.g,
   background.b * background.a * (1 - acc.a) + acc.b,
   background.a + acc.a * (1 - background.a)⟩

/-- The quoted two-layer mono LDI blending: premultiply layer 1, accumulate
layer 2 unless `result.a == 1.0 || uNumLayers == 1`, then blend against the
background. -/
def monoBlend2 (layer1 layer2 : Vec4) (uNumLayers : ℕ) (background : Vec4) : Vec4 :=
  let res := premultiply layer1
  let res2 := if ¬(res.a = 1 ∨ uNumLayers = 1) then layerOver res layer2 else res
  backgroundBlend background res2

/-- Stereo occlusion handling for one layer, from the quoted stereo LDI
blending: with `aL`/`aR` the original alphas, first
`if ((aL == 0.0) && (aR == 1.0) || (layer1L.a < layer1R.a - 0.1)) layer1L = layer1R;`
then
`if ((aR == 0.0) && (aL == 1.0) || (layer1R.a < layer1L.a - 0.1)) layer1R = layer1L;`
(the second test reads the possibly already replaced `layer1L`). -/
def reconcileStereo (layer1L layer1R : Vec4) : Vec4 × Vec4 :=
  let aL := layer1L.a
  let aR := layer1R.a
  let newL := if (aL = 0 ∧ aR = 1) ∨ layer1L.a < layer1R.a - 1 / 10 then layer1R else layer1L
  let newR := if (aR = 0 ∧ aL = 1) ∨ layer1R.a < newL.a - 1 / 10 then newL else layer1R
  (newL, newR)

/-- Shader `weight2`: the stereo blending weight
`smoothstep(0, 1, dot(C2 - C1, C - C1) / dot(C2 - C1, C2 - C1))`. -/
def weight2 (C C1v C2v : Vec3) : ℚ :=
  smoothstep 0 1 (vec3Dot (vec3Sub C2v C1v) (vec3Sub C C1v)
    / vec3Dot (vec3Sub C2v C1v) (vec3Sub C2v C1v))

/-- One RGBA pixel of a canvas `ImageData` buffer (byte values). -/
structure RGBA8 where
  r : ℕ
  g : ℕ
  b : ℕ
  a : ℕ
deriving DecidableEq, Repr

/-- One iteration of the combination loop of
`textureUtils.createDepthMaskTexture`: RGB is copied from the depth image;
alpha is the mask image's red channel when a mask was loaded, else 255. -/
def combinedPixel (depthPx : RGBA8) (maskPx : Option RGBA8) : RGBA8 :=
  ⟨depthPx.r, depthPx.g, depthPx.b,
   match maskPx with
   | some m => m.r
   | none => 255⟩

/-- The full per-pixel combination of `createDepthMaskTexture`, with images
as functions from pixel index to RGBA bytes and the optional mask image. -/
def createDepthMaskPixels (depth : ℕ → RGBA8) (mask : Option (ℕ → RGBA8)) :
    ℕ → RGBA8 :=
  fun i => combinedPixel (depth i) (mask.map (fun m => m i))

lemma le_clampQ (v lo hi : ℚ) (h : lo ≤ hi) : lo ≤ clampQ v lo hi :=
  le_min (le_max_right v lo) h

lemma clampQ_le (v lo hi : ℚ) : clampQ v lo hi ≤ hi :=
  min_le_right _ _

lemma two_div_le (r : ℚ) (h : 4 ≤ r) : 2 / r ≤ 1 - 2 / r := by
  have hr : (0 : ℚ) < r := by linarith
  have h4 : (4 : ℚ) / r ≤ 1 := (div_le_one hr).2 h
  have hsum : 2 / r + 2 / r = 4 / r := by ring
  linarith

/-- Claim C6: `readDisp` decodes the stored inverse depth as
`invZ = sampled_red * (invZmin - invZmax) + invZmax`, and the UV used for
the depth sample is clamped into `[2/iRes, 1 - 2/iRes]` on each axis, i.e.
at least 2 texels from every edge of the source image. -/
theorem readDisp_decode_clamp (tex : Vec2 → Vec4) (uv : Vec2)
    (vMin vMax : ℚ) (iRes : Vec2) (hx : 4 ≤ iRes.x) (hy : 4 ≤ iRes.y) :
    readDisp tex uv vMin vMax iRes
      = (tex (clampedUV uv iRes)).r * (vMin - vMax) + vMax
    ∧ 2 / iRes.x ≤ (clampedUV uv iRes).x
    ∧ (clampedUV uv iRes).x ≤ 1 - 2 / iRes.x
    ∧ 2 / iRes.y ≤ (clampedUV uv iRes).y
    ∧ (clampedUV uv iRes).y ≤ 1 - 2 / iRes.y := by
  refine ⟨rfl, ?_, ?_, ?_, ?_⟩
  · exact le_clampQ _ _ _ (two_div_le _ hx)
  · exact clampQ_le _ _ _
  · exact le_clampQ _ _ _ (two_div_le _ hy)
  · exact clampQ_le _ _ _

/-- Witness for C6 at a concrete out-of-range UV and a 100x100 source. -/
theorem readDisp_decode_clamp_witness :
    readDisp (fun _ => ⟨3 / 10, 0, 0, 1⟩) ⟨5, -5⟩ 1 (1 / 2) ⟨100, 100⟩
      = ((fun (_ : Vec2) => (⟨3 / 10, 0, 0, 1⟩ : Vec4))
          (clampedUV ⟨5, -5⟩ ⟨100, 100⟩)).r * (1 - 1 / 2) + 1 / 2
    ∧ 2 / (100 : ℚ) ≤ (clampedUV ⟨5, -5⟩ ⟨100, 100⟩).x
    ∧ (clampedUV ⟨5, -5⟩ ⟨100, 100⟩).x ≤ 1 - 2 / (100 : ℚ)
    ∧ 2 / (100 : ℚ) ≤ (clampedUV ⟨5, -5⟩ ⟨100, 100⟩).y
    ∧ (clampedUV ⟨5, -5⟩ ⟨100, 100⟩).y ≤ 1 - 2 / (100 : ℚ) :=
  readDisp_decode_clamp _ _ _ _ _ (by norm_num) (by norm_num)
/-- Claim C5: with the front layer fully opaque the composite equals the
front layer's premultiplied color and layer 1 contributes nothing; the
accumulation step is skipped exactly when the accumulated alpha equals 1
or only one layer exists; and the final background blend leaves a fully
opaque accumulation unchanged. -/
theorem monoBlend2_occlusion (l0 l1 l1' : Vec4) (n : ℕ) (bg : Vec4) :
    (l0.a = 1 → monoBlend2 l0 l1 n bg = ⟨l0.r, l0.g, l0.b, 1⟩
      ∧ monoBlend2 l0 l1 n bg = monoBlend2 l0 l1' n bg)
    ∧ (¬(l0.a = 1 ∨ n = 1) →
        monoBlend2 l0 l1 n bg = backgroundBlend bg (layerOver (premultiply l0) l1))
    ∧ ((l0.a = 1 ∨ n = 1) →
        monoBlend2 l0 l1 n bg = backgroundBlend bg (premultiply l0))
    ∧ (∀ acc : Vec4, acc.a = 1 → backgroundBlend bg acc = acc) := by
  refine ⟨?_, ?_, ?_, ?_⟩
  · intro h
    have hcond : ¬¬((premultiply l0).a = 1 ∨ n = 1) :=
      not_not_intro (Or.inl (by simp [premultiply, h]))
    constructor
    · simp only [monoBlend2]
      rw [if_neg hcond]
      simp only [backgroundBlend, premultiply, h]
      congr 1 <;> ring
    · simp only [monoBlend2]
      rw [if_neg hcond, if_neg hcond]
  · intro h
    have h' : ¬((premultiply l0).a = 1 ∨ n = 1) := by
      simpa [premultiply] using h
    simp only [monoBlend2]
    rw [if_pos h']
  · intro h
    have h' : ¬¬((premultiply l0).a = 1 ∨ n = 1) :=
      not_not_intro (by simpa [premultiply] using h)
    simp only [monoBlend2]
    rw [if_neg h']
  · intro acc h
    obtain ⟨ar, ag, ab, aa⟩ := acc
    simp only at h
    subst h
    simp only [backgroundBlend]
    congr 1 <;> ring

/-- Witness for C5 with a concrete opaque front layer. -/
theorem monoBlend2_occlusion_witness :
    monoBlend2 ⟨1 / 2, 1 / 3, 1 / 4, 1⟩ ⟨1, 1, 1, 1⟩ 2 ⟨1 / 5, 1 / 6, 1 / 7, 1⟩
      = ⟨1 / 2, 1 / 3, 1 / 4, 1⟩ :=
  ((monoBlend2_occlusion ⟨1 / 2, 1 / 3, 1 / 4, 1⟩ ⟨1, 1, 1, 1⟩ ⟨0, 0, 0, 0⟩ 2
      ⟨1 / 5, 1 / 6, 1 / 7, 1⟩).1 rfl).1

/-- Claim C9: in the stereo per-layer occlusion handling, a total 0/1
occlusion disagreement or an alpha gap larger than 0.1 replaces the
weaker-confidence result by the stronger one, and after reconciliation the
pair never exhibits a total 0/1 occlusion disagreement. -/
theorem reconcileStereo_repair (L R : Vec4) :
    ((L.a = 0 ∧ R.a = 1) ∨ L.a < R.a - 1 / 10 → (reconcileStereo L R).1 = R)
    ∧ ((R.a = 0 ∧ L.a = 1) ∨ R.a < L.a - 1 / 10 →
        (reconcileStereo L R).1 = L ∧ (reconcileStereo L R).2 = L)
    ∧ ¬(((reconcileStereo L R).1.a = 0 ∧ (reconcileStereo L R).2.a = 1)
        ∨ ((reconcileStereo L R).1.a = 1 ∧ (reconcileStereo L R).2.a = 0)) := by
  by_cases hc1 : (L.a = 0 ∧ R.a = 1) ∨ L.a < R.a - 1 / 10
  · have hfst : (reconcileStereo L R).1 = R := by
      simp only [reconcileStereo]
      rw [if_pos hc1]
    have hsnd : (reconcileStereo L R).2 = R := by
      simp only [reconcileStereo]
      rw [if_pos hc1]
      by_cases hc2 : (R.a = 0 ∧ L.a = 1) ∨ R.a < R.a - 1 / 10
      · rw [if_pos hc2]
      · rw [if_neg hc2]
    refine ⟨fun _ => hfst, ?_, ?_⟩
    · intro h2
      exfalso
      rcases hc1 with ⟨hL0, hR1⟩ | hgap
      · rcases h2 with ⟨hR0, _⟩ | hgap2
        · rw [hR0] at hR1
          norm_num at hR1
        · rw [hL0, hR1] at hgap2
          norm_num at hgap2
      · rcases h2 with ⟨hR0, hL1⟩ | hgap2
        · rw [hR0, hL1] at hgap
          norm_num at hgap
        · linarith
    · rw [hfst, hsnd]
      rintro (⟨h0, h1⟩ | ⟨h1, h0⟩) <;> rw [h0] at h1 <;> norm_num at h1
  · have hfst : (reconcileStereo L R).1 = L := by
      simp only [reconcileStereo]
      rw [if_neg hc1]
    by_cases hc2 : (R.a = 0 ∧ L.a = 1) ∨ R.a < L.a - 1 / 10
    · have hsnd : (reconcileStereo L R).2 = L := by
        simp only [reconcileStereo]
        rw [if_neg hc1, if_pos hc2]
      refine ⟨fun h1 => absurd h1 hc1, fun _ => ⟨hfst, hsnd⟩, ?_⟩
      rw [hfst, hsnd]
      rintro (⟨h0, h1⟩ | ⟨h1, h0⟩) <;> rw [h0] at h1 <;> norm_num at h1
    · have hsnd : (reconcileStereo L R).2 = R := by
        simp only [reconcileStereo]
        rw [if_neg hc1, if_neg hc2]
      refine ⟨fun h1 => absurd h1 hc1, fun h2 => absurd h2 hc2, ?_⟩
      rw [hfst, hsnd]
      rintro (⟨h0, h1⟩ | ⟨h1, h0⟩)
      · exact hc1 (Or.inl ⟨h0, h1⟩)
      · exact hc2 (Or.inl ⟨h0, h1⟩)

/-- Witness for C9: a left miss against a right full hit is replaced by the
right result. -/
theorem reconcileStereo_repair_witness :
    (reconcileStereo ⟨0, 0, 0, 0⟩ ⟨1 / 2, 1 / 3, 1 / 4, 1⟩).1 = ⟨1 / 2, 1 / 3, 1 / 4, 1⟩ :=
  (reconcileStereo_repair ⟨0, 0, 0, 0⟩ ⟨1 / 2, 1 / 3, 1 / 4, 1⟩).1 (Or.inl ⟨rfl, rfl⟩)

/-- Claim C10: without a mask URL every produced pixel has alpha 255, so a
texture whose (normalized) alpha everywhere equals that produced alpha is
never excluded by the shader's dilated mask test; with a mask, the alpha
channel is the mask image's red channel and RGB is copied from the depth
image. -/
theorem createDepthMask_alpha (depth m : ℕ → RGBA8) (i : ℕ)
    (tex : Vec2 → Vec4)
    (htex : ∀ uv, (tex uv).a = ((createDepthMaskPixels depth none i).a : ℚ) / 255)
    (xy iRes : Vec2) :
    (createDepthMaskPixels depth none i).a = 255
    ∧ ((createDepthMaskPixels depth none i).a : ℚ) / 255 ≥ 1 / 2
    ∧ createDepthMaskPixels depth (some m) i
        = ⟨(depth i).r, (depth i).g, (depth i).b, (m i).r⟩
    ∧ isMaskAround tex xy iRes = false := by
  have halpha : (createDepthMaskPixels depth none i).a = 255 := rfl
  have hone : ∀ uv, (tex uv).a = 1 := by
    intro uv
    rw [htex uv, halpha]
    norm_num
  refine ⟨halpha, by rw [halpha]; norm_num, rfl, ?_⟩
  simp only [isMaskAround, maskSampleBad, hone, Bool.or_eq_false_iff]
  norm_num

/-- Witness for C10 at a concrete depth image, mask image and texture. -/
theorem createDepthMask_alpha_witness :
    (createDepthMaskPixels (fun _ => ⟨7, 8, 9, 10⟩) none 0).a = 255
    ∧ ((createDepthMaskPixels (fun _ => ⟨7, 8, 9, 10⟩) none 0).a : ℚ) / 255 ≥ 1 / 2
    ∧ createDepthMaskPixels (fun _ => ⟨7, 8, 9, 10⟩) (some (fun _ => ⟨11, 12, 13, 14⟩)) 0
        = ⟨7, 8, 9, 11⟩
    ∧ isMaskAround (fun _ => ⟨0, 0, 0, 1⟩) ⟨0, 0⟩ ⟨4, 4⟩ = false :=
  createDepthMask_alpha (fun _ => ⟨7, 8, 9, 10⟩) (fun _ => ⟨11, 12, 13, 14⟩) 0
    (fun _ => ⟨0, 0, 0, 1⟩) (fun _ => by norm_num [createDepthMaskPixels, combinedPixel])
    ⟨0, 0⟩ ⟨4, 4⟩

lemma smoothstep01_mono (u v : ℚ) (huv : u ≤ v) :
    smoothstep 0 1 u ≤ smoothstep 0 1 v := by
  simp only [smoothstep, clampQ, sub_zero, div_one]
  set a := min (max u 0) 1 with ha
  set b := min (max v 0) 1 with hb
  have hab : a ≤ b := min_le_min (max_le_max huv le_rfl) le_rfl
  have ha0 : 0 ≤ a := le_min (le_max_right u 0) zero_le_one
  have hb0 : 0 ≤ b := le_min (le_max_right v 0) zero_le_one
  have ha1 : a ≤ 1 := min_le_right _ _
  have hb1 : b ≤ 1 := min_le_right _ _
  nlinarith [mul_nonneg (mul_nonneg (sub_nonneg.2 hab) ha0) (sub_nonneg.2 ha1),
    mul_nonneg (mul_nonneg (sub_nonneg.2 hab) hb0) (sub_nonneg.2 hb1),
    mul_nonneg (mul_nonneg (sub_nonneg.2 hab) ha0) (sub_nonneg.2 hb1),
    mul_nonneg (mul_nonneg (sub_nonneg.2 hab) hb0) (sub_nonneg.2 ha1)]

lemma sum_sq_pos_of_ne (a b c : ℚ) (hn : ¬(a = 0 ∧ b = 0 ∧ c = 0)) :
    0 < a * a + b * b + c * c := by
  rcases lt_or_eq_of_le
      (add_nonneg (add_nonneg (mul_self_nonneg a) (mul_self_nonneg b))
        (mul_self_nonneg c) : (0 : ℚ) ≤ a * a + b * b + c * c) with h | h
  · exact h
  · exfalso
    apply hn
    have ha : a * a = 0 := by nlinarith [mul_self_nonneg a, mul_self_nonneg b, mul_self_nonneg c]
    have hb : b * b = 0 := by nlinarith [mul_self_nonneg a, mul_self_nonneg b, mul_self_nonneg c]
    have hc : c * c = 0 := by nlinarith [mul_self_nonneg a, mul_self_nonneg b, mul_self_nonneg c]
    exact ⟨mul_self_eq_zero.1 ha, mul_self_eq_zero.1 hb, mul_self_eq_zero.1 hc⟩

/-- Claim C8: for distinct source positions the stereo blend weight is 0 at
the first view, 1 at the second, and monotonically non-decreasing along the
axis from the first to the second view position. -/
theorem weight2_boundary_monotone (C1v C2v : Vec3) (h : C1v ≠ C2v) :
    weight2 C1v C1v C2v = 0 ∧ weight2 C2v C1v C2v = 1
    ∧ ∀ s t : ℚ, s ≤ t →
        weight2 (vec3Add C1v (vec3Smul s (vec3Sub C2v C1v))) C1v C2v
          ≤ weight2 (vec3Add C1v (vec3Smul t (vec3Sub C2v C1v))) C1v C2v := by
  obtain ⟨x1, y1, z1⟩ := C1v
  obtain ⟨x2, y2, z2⟩ := C2v
  have hn : ¬(x2 - x1 = 0 ∧ y2 - y1 = 0 ∧ z2 - z1 = 0) := by
    rintro ⟨hx, hy, hz⟩
    apply h
    simp only [Vec3.mk.injEq]
    refine ⟨by linarith, by linarith, by linarith⟩
  have hdd : vec3Dot (vec3Sub ⟨x2, y2, z2⟩ ⟨x1, y1, z1⟩) (vec3Sub ⟨x2, y2, z2⟩ ⟨x1, y1, z1⟩) ≠ 0 := by
    simp only [vec3Dot, vec3Sub]
    exact ne_of_gt (sum_sq_pos_of_ne _ _ _ hn)
  refine ⟨?_, ?_, ?_⟩
  · have hzero : vec3Dot (vec3Sub ⟨x2, y2, z2⟩ ⟨x1, y1, z1⟩)
        (vec3Sub ⟨x1, y1, z1⟩ ⟨x1, y1, z1⟩) = 0 := by
      simp only [vec3Dot, vec3Sub]
      ring
    rw [weight2, hzero, zero_div]
    norm_num [smoothstep, clampQ]
  · rw [weight2, div_self hdd]
    norm_num [smoothstep, clampQ]
  · intro s t hst
    have hray : ∀ u : ℚ, vec3Dot (vec3Sub ⟨x2, y2, z2⟩ ⟨x1, y1, z1⟩)
        (vec3Sub (vec3Add ⟨x1, y1, z1⟩ (vec3Smul u (vec3Sub ⟨x2, y2, z2⟩ ⟨x1, y1, z1⟩)))
          ⟨x1, y1, z1⟩)
        = u * vec3Dot (vec3Sub ⟨x2, y2, z2⟩ ⟨x1, y1, z1⟩) (vec3Sub ⟨x2, y2, z2⟩ ⟨x1, y1, z1⟩) := by
      intro u
      simp only [vec3Dot, vec3Sub, vec3Add, vec3Smul]
      ring
    rw [weight2, weight2, hray s, hray t, mul_div_assoc, mul_div_assoc, div_self hdd,
      mul_one, mul_one]
    exact smoothstep01_mono s t hst

/-- Witness for C8 at concrete distinct view positions. -/
theorem weight2_boundary_monotone_witness :
    weight2 ⟨1, 0, 0⟩ ⟨0, 0, 0⟩ ⟨1, 0, 0⟩ = 1 :=
  (weight2_boundary_monotone ⟨0, 0, 0⟩ ⟨1, 0, 0⟩
    (by
      intro hc
      have hx := congrArg Vec3.x hc
      norm_num at hx)).2.1

lemma mat3Inv_mul (A : Mat3) (hd : mat3Det A ≠ 0) :
    mat3Mul (mat3Inv A) A = mat3One := by
  obtain ⟨a00, a01, a02, a10, a11, a12, a20, a21, a22⟩ := A
  simp only [mat3Det] at hd
  simp only [mat3Mul, mat3Inv, mat3Det, mat3One, Mat3.mk.injEq]
  refine ⟨?_, ?_, ?_, ?_, ?_, ?_, ?_, ?_, ?_⟩ <;>
    · field_simp
      ring

/-- Claim C3: the Pose Transform sends the view's world position to
`inverse(C) · p` (the camera-frame relative position) and its world
rotation to `inverse(C)_rotation · R_rotation`, and when the view's pose
equals the observer's pose the output is the origin and the identity
rotation. -/
theorem updateProjectorPose_observer_local (proj cam : Pose)
    (hdet : mat3Det cam.rot ≠ 0) :
    posInCameraSpace proj cam
      = mat3MulVec (mat3Inv cam.rot) (vec3Sub proj.pos cam.pos)
    ∧ rotationInCameraSpace proj cam = mat3Mul (mat3Inv cam.rot) proj.rot
    ∧ (proj = cam →
        posInCameraSpace proj cam = ⟨0, 0, 0⟩
        ∧ rotationInCameraSpace proj cam = mat3One) := by
  refine ⟨rfl, rfl, ?_⟩
  intro he
  subst he
  constructor
  · simp [posInCameraSpace, matrixWorldInverseApply, vec3Sub, mat3MulVec]
  · simp only [rotationInCameraSpace, matrixWorldInverseRot]
    exact mat3Inv_mul _ hdet

/-- Witness for C3: a projector coinciding with the camera maps to the
origin with identity rotation. -/
theorem updateProjectorPose_observer_local_witness :
    posInCameraSpace ⟨mat3One, ⟨1, 2, 3⟩⟩ ⟨mat3One, ⟨1, 2, 3⟩⟩ = ⟨0, 0, 0⟩
    ∧ rotationInCameraSpace ⟨mat3One, ⟨1, 2, 3⟩⟩ ⟨mat3One, ⟨1, 2, 3⟩⟩ = mat3One :=
  (updateProjectorPose_observer_local ⟨mat3One, ⟨1, 2, 3⟩⟩ ⟨mat3One, ⟨1, 2, 3⟩⟩
    (by norm_num [mat3Det, mat3One])).2.2 rfl

/-- Claim C4: the axis-flip conversion is applied exactly once per source
view: the rotation is uploaded unflipped and reaches the kernel as
`F * transpose(R') * F` with `F = diag(1,1,-1)` (applied in the shader),
the position's `z` is negated once on the CPU side (mono and stereo paths
alike), and both conversions are involutions, so applying either twice
would return the unconverted value. -/
theorem axis_flip_applied_once (proj projL projR cam : Pose) :
    uViewRotation proj cam = rotationInCameraSpace proj cam
    ∧ viewRotationMatrix proj cam = flipConj (rotationInCameraSpace proj cam)
    ∧ uViewPosition proj cam = negZ (posInCameraSpace proj cam)
    ∧ (updateProjectorPosesStereo projL projR cam).1
        = (negZ (posInCameraSpace projL cam), rotationInCameraSpace projL cam)
    ∧ (updateProjectorPosesStereo projL projR cam).2
        = (negZ (posInCameraSpace projR cam), rotationInCameraSpace projR cam)
    ∧ (∀ M : Mat3, flipConj (flipConj M) = M)
    ∧ ∀ v : Vec3, negZ (negZ v) = v := by
  refine ⟨rfl, rfl, rfl, rfl, rfl, ?_, ?_⟩
  · intro M
    obtain ⟨a00, a01, a02, a10, a11, a12, a20, a21, a22⟩ := M
    simp only [flipConj, flipZ, mat3Transpose, mat3Mul, Mat3.mk.injEq]
    refine ⟨?_, ?_, ?_, ?_, ?_, ?_, ?_, ?_, ?_⟩ <;> ring
  · intro v
    obtain ⟨vx, vy, vz⟩ := v
    simp only [negZ, neg_neg]

lemma vec2Sub_add_cancel (u v : Vec2) : vec2Add (vec2Sub u v) v = u := by
  obtain ⟨ux, uy⟩ := u
  obtain ⟨vx, vy⟩ := v
  simp only [vec2Add, vec2Sub, Vec2.mk.injEq]
  constructor <;> ring

lemma rayStep_overshoot (tex : Vec2 → Vec4) (invZmin invZmax : ℚ) (iRes : Vec2)
    (qs Cz : ℚ) (st : RayState)
    (h : readDisp tex (vec2Add (vec2Sub st.s1 st.ds1) half2) invZmin invZmax iRes
          > st.invZ - st.dinvZ
        ∧ (st.invZ - st.dinvZ) * qs / (1 - Cz * (st.invZ - st.dinvZ)) > 0) :
    rayStep tex invZmin invZmax iRes qs Cz st
      = ⟨st.invZ, st.dinvZ / 2, st.s1, vec2Half st.ds1,
         (st.invZ - st.dinvZ) * qs / (1 - Cz * (st.invZ - st.dinvZ))⟩ := by
  simp only [rayStep]
  rw [if_pos h]
  congr 1
  · ring
  · exact vec2Sub_add_cancel st.s1 st.ds1

lemma rayStep_march (tex : Vec2 → Vec4) (invZmin invZmax : ℚ) (iRes : Vec2)
    (qs Cz : ℚ) (st : RayState)
    (h : ¬(readDisp tex (vec2Add (vec2Sub st.s1 st.ds1) half2) invZmin invZmax iRes
          > st.invZ - st.dinvZ
        ∧ (st.invZ - st.dinvZ) * qs / (1 - Cz * (st.invZ - st.dinvZ)) > 0)) :
    rayStep tex invZmin invZmax iRes qs Cz st
      = ⟨st.invZ - st.dinvZ, st.dinvZ, vec2Sub st.s1 st.ds1, st.ds1,
         (st.invZ - st.dinvZ) * qs / (1 - Cz * (st.invZ - st.dinvZ))⟩ := by
  simp only [rayStep]
  rw [if_neg h]

/-- With a degenerate inverse-depth range (`invZmin = invZmax = 1`) the
sampled disparity is constantly 1, so the search never overshoots; every
step is then the identity on the fixed state with `invZ = 1`, `invZ2 = 1`. -/
lemma rayStep_degenerate_fixed (tex : Vec2 → Vec4) (iRes : Vec2) (v : Vec2) (w : ℚ) :
    rayStep tex 1 1 iRes 1 0 ⟨1, 0, v, ⟨0, 0⟩, w⟩ = ⟨1, 0, v, ⟨0, 0⟩, 1⟩ := by
  have h : ¬(readDisp tex (vec2Add (vec2Sub v ⟨0, 0⟩) half2) 1 1 iRes > (1 : ℚ) - 0
      ∧ ((1 : ℚ) - 0) * 1 / (1 - 0 * ((1 : ℚ) - 0)) > 0) := by
    rintro ⟨hgt, -⟩
    rw [readDisp] at hgt
    norm_num at hgt
  have := rayStep_march tex 1 1 iRes 1 0 ⟨1, 0, v, ⟨0, 0⟩, w⟩ h
  rw [this]
  simp only [RayState.mk.injEq, vec2Sub, Vec2.mk.injEq]
  norm_num

/-- With degenerate depth range and trivial homography parameters the
search is stationary at its initial `s1`. -/
lemma raycastSearch_degenerate (tex : Vec2 → Vec4) (iRes : Vec2) (s10 : Vec2) :
    raycastSearch tex 1 1 iRes 1 0 s10 ⟨0, 0⟩ = ⟨1, 0, s10, ⟨0, 0⟩, 1⟩ := by
  simp only [raycastSearch]
  rw [show ((1 : ℚ) - 1) / 40 = 0 by norm_num]
  rw [show (40 : ℕ) = 39 + 1 from rfl, Function.iterate_succ_apply,
    rayStep_degenerate_fixed]
  exact Function.iterate_fixed (rayStep_degenerate_fixed tex iRes s10 1) 39

/-- In the identity-pose, coincident-camera, degenerate-depth configuration
the raycast search is stationary: the final state keeps `s1 = s2` and ends
with `invZ = 1`, `invZ2 = 1`. -/
lemma raycastFinalState_degenerate (tex : Vec2 → Vec4) (s2 iRes : Vec2) :
    raycastFinalState s2 mat3One ⟨0, 0, 0⟩ mat3One ⟨0, 0, 0⟩ tex 1 1 iRes
      = ⟨1, 0, s2, ⟨0, 0⟩, 1⟩ := by
  obtain ⟨sx, sy⟩ := s2
  have hinv : mat3Inv mat3One = mat3One := by
    norm_num [mat3Inv, mat3Det, mat3One, Mat3.mk.injEq]
  have hP : mat3Mul mat3One mat3One = mat3One := by
    norm_num [mat3Mul, mat3One, Mat3.mk.injEq]
  have hCv : mat3MulVec mat3One (vec3Sub ⟨0, 0, 0⟩ ⟨0, 0, 0⟩) = ⟨0, 0, 0⟩ := by
    norm_num [mat3MulVec, vec3Sub, mat3One, Vec3.mk.injEq]
  simp only [raycastFinalState, hinv, hP, hCv]
  norm_num [homogTop, homogBot, mat3One]
  exact raycastSearch_degenerate tex iRes ⟨sx, sy⟩

/-- Claim C1: the inverse-depth search starts at `invZ = invZmin` with
initial step `dinvZ = (invZmin - invZmax) / 40`, iterates its body exactly
40 times with no early exit, and every iteration in which the sampled
stored inverse depth exceeds the candidate `invZ` and the reconstructed
observer-space inverse depth is positive undoes the last step (restoring
the previous `invZ` and `s1`) and halves both `dinvZ` and `ds1`. -/
theorem raycastSearch_forty_iterations (tex : Vec2 → Vec4)
    (invZmin invZmax : ℚ) (iRes : Vec2) (qs Cz : ℚ) (s10 ds10 : Vec2) :
    raycastSearch tex invZmin invZmax iRes qs Cz s10 ds10
      = (rayStep tex invZmin invZmax iRes qs Cz)^[40]
          ⟨invZmin, (invZmin - invZmax) / 40, s10, ds10, 0⟩
    ∧ ∀ st : RayState,
        (readDisp tex (vec2Add (vec2Sub st.s1 st.ds1) half2) invZmin invZmax iRes
            > st.invZ - st.dinvZ
          ∧ (st.invZ - st.dinvZ) * qs / (1 - Cz * (st.invZ - st.dinvZ)) > 0 →
            rayStep tex invZmin invZmax iRes qs Cz st
              = ⟨st.invZ, st.dinvZ / 2, st.s1, vec2Half st.ds1,
                 (st.invZ - st.dinvZ) * qs / (1 - Cz * (st.invZ - st.dinvZ))⟩)
        ∧ (¬(readDisp tex (vec2Add (vec2Sub st.s1 st.ds1) half2) invZmin invZmax iRes
            > st.invZ - st.dinvZ
          ∧ (st.invZ - st.dinvZ) * qs / (1 - Cz * (st.invZ - st.dinvZ)) > 0) →
            rayStep tex invZmin invZmax iRes qs Cz st
              = ⟨st.invZ - st.dinvZ, st.dinvZ, vec2Sub st.s1 st.ds1, st.ds1,
                 (st.invZ - st.dinvZ) * qs / (1 - Cz * (st.invZ - st.dinvZ))⟩) := by
  refine ⟨rfl, fun st => ⟨?_, ?_⟩⟩
  · exact rayStep_overshoot tex invZmin invZmax iRes qs Cz st
  · exact rayStep_march tex invZmin invZmax iRes qs Cz st

/-- Witness for C1: one concrete overshoot iteration undoes the step and
halves the step sizes. -/
theorem raycastSearch_forty_iterations_witness :
    rayStep (fun _ => ⟨1, 0, 0, 1⟩) 1 0 ⟨100, 100⟩ 1 0
        ⟨1, 1 / 40, ⟨0, 0⟩, ⟨0, 0⟩, 0⟩
      = ⟨1, 1 / 80, ⟨0, 0⟩, ⟨0, 0⟩, 39 / 40⟩ := by
  have h := ((raycastSearch_forty_iterations (fun _ => ⟨1, 0, 0, 1⟩) 1 0 ⟨100, 100⟩ 1 0
      ⟨0, 0⟩ ⟨0, 0⟩).2 ⟨1, 1 / 40, ⟨0, 0⟩, ⟨0, 0⟩, 0⟩).1
    (by
      rw [readDisp]
      norm_num)
  rw [h]
  simp only [RayState.mk.injEq, vec2Half, Vec2.mk.injEq]
  norm_num

/-- Claim C2: whenever the final search state fails the acceptance test
(`abs(s1.x) < 0.5` and `abs(s1.y) < 0.5` and `invZ2 > 0`), the raycast
kernel returns exactly the defined background sample with alpha 0. -/
theorem raycasting_background_reject (s2 : Vec2) (FSKR2 : Mat3) (C2v : Vec3)
    (FSKR1 : Mat3) (C1v : Vec3) (iChannelCol iChannelDisp : Vec2 → Vec4)
    (invZmin invZmax : ℚ) (iRes : Vec2) (feathering : ℚ) (background : Vec4)
    (hrej : ¬(|(raycastFinalState s2 FSKR2 C2v FSKR1 C1v iChannelDisp
          invZmin invZmax iRes).s1.x| < 1 / 2
        ∧ |(raycastFinalState s2 FSKR2 C2v FSKR1 C1v iChannelDisp
          invZmin invZmax iRes).s1.y| < 1 / 2
        ∧ (raycastFinalState s2 FSKR2 C2v FSKR1 C1v iChannelDisp
          invZmin invZmax iRes).invZ2 > 0)) :
    raycasting s2 FSKR2 C2v FSKR1 C1v iChannelCol iChannelDisp
        invZmin invZmax iRes feathering background
      = ⟨background.r, background.g, background.b, 0⟩ := by
  simp only [raycasting]
  rw [if_neg hrej]

/-- Witness for C2: a ray whose final `s1.x = 7/10` is out of bounds and
yields the background sample with alpha 0. -/
theorem raycasting_background_reject_witness :
    raycasting ⟨7 / 10, 0⟩ mat3One ⟨0, 0, 0⟩ mat3One ⟨0, 0, 0⟩
        (fun _ => ⟨1, 1, 1, 1⟩) (fun _ => ⟨0, 0, 0, 1⟩) 1 1 ⟨100, 100⟩ (1 / 10)
        ⟨1 / 4, 1 / 3, 1 / 5, 1⟩
      = ⟨1 / 4, 1 / 3, 1 / 5, 0⟩ :=
  raycasting_background_reject ⟨7 / 10, 0⟩ mat3One ⟨0, 0, 0⟩ mat3One ⟨0, 0, 0⟩
    (fun _ => ⟨1, 1, 1, 1⟩) (fun _ => ⟨0, 0, 0, 1⟩) 1 1 ⟨100, 100⟩ (1 / 10)
    ⟨1 / 4, 1 / 3, 1 / 5, 1⟩
    (by
      rw [raycastFinalState_degenerate]
      norm_num
      rw [show |(7 : ℚ) / 10| = 7 / 10 from abs_of_pos (by norm_num)]
      norm_num)

/-- Counterexample to C7: a disparity texture whose alpha is 1 at the
accepted sample `(0.5, 0.5)` but 0 at the dilated neighbor
`(0.5 + 1.5/100, ...)`: the dilated mask test reports invalid, yet the
kernel (which tests only the center sample) returns alpha 1, not 0. -/
theorem isMaskAround_kernel_counterexample :
    isMaskAround (fun uv => ⟨1, 0, 0, if uv.x ≤ 51 / 100 then 1 else 0⟩)
        ⟨1 / 2, 1 / 2⟩ ⟨100, 100⟩ = true
    ∧ (raycasting ⟨0, 0⟩ mat3One ⟨0, 0, 0⟩ mat3One ⟨0, 0, 0⟩
        (fun _ => ⟨1, 1, 1, 1⟩)
        (fun uv => ⟨1, 0, 0, if uv.x ≤ 51 / 100 then 1 else 0⟩)
        1 1 ⟨100, 100⟩ (1 / 10) ⟨0, 0, 0, 1⟩).a = 1 := by
  constructor
  · simp only [isMaskAround, maskSampleBad, dilatedSamplePos, maskDilation,
      Bool.or_eq_true, decide_eq_true_eq]
    norm_num
  · simp only [raycasting]
    rw [raycastFinalState_degenerate]
    rw [if_pos (by norm_num : |((⟨1, 0, ⟨0, 0⟩, ⟨0, 0⟩, 1⟩ : RayState)).s1.x| < 1 / 2
      ∧ |((⟨1, 0, ⟨0, 0⟩, ⟨0, 0⟩, 1⟩ : RayState)).s1.y| < 1 / 2
      ∧ ((⟨1, 0, ⟨0, 0⟩, ⟨0, 0⟩, 1⟩ : RayState)).invZ2 > 0)]
    rw [if_neg (by norm_num [vec2Add, half2] :
      ¬((fun uv => (⟨1, 0, 0, if uv.x ≤ 51 / 100 then 1 else 0⟩ : Vec4))
          (vec2Add ((⟨1, 0, ⟨0, 0⟩, ⟨0, 0⟩, 1⟩ : RayState)).s1 half2)).a < 1 / 2)]
    norm_num [taper, smoothstep, clampQ, vec2Add, half2]

/-- Claim C7 (amended): `isMaskAround` reports a position invalid exactly
when some sample of the 3x3 neighborhood at 1.5-texel offsets has alpha
below 0.5; the raycast kernel itself applies a single-sample mask test at
the accepted `s1 + 0.5` and returns the all-zero sample (alpha 0) whenever
that center sample's alpha is below 0.5 — a pixel whose dilated mask is
invalid but whose center sample is valid can still receive nonzero alpha. -/
theorem isMaskAround_dilated_center_mask :
    (∀ (tex : Vec2 → Vec4) (xy iRes : Vec2),
        isMaskAround tex xy iRes = true ↔
          ∃ o ∈ maskOffsets, (tex (dilatedSamplePos xy iRes o.1 o.2)).a < 1 / 2)
    ∧ ∀ (s2 : Vec2) (FSKR2 : Mat3) (C2v : Vec3) (FSKR1 : Mat3) (C1v : Vec3)
        (iChannelCol iChannelDisp : Vec2 → Vec4) (invZmin invZmax : ℚ)
        (iRes : Vec2) (feathering : ℚ) (background : Vec4),
        (|(raycastFinalState s2 FSKR2 C2v FSKR1 C1v iChannelDisp
            invZmin invZmax iRes).s1.x| < 1 / 2
          ∧ |(raycastFinalState s2 FSKR2 C2v FSKR1 C1v iChannelDisp
            invZmin invZmax iRes).s1.y| < 1 / 2
          ∧ (raycastFinalState s2 FSKR2 C2v FSKR1 C1v iChannelDisp
            invZmin invZmax iRes).invZ2 > 0) →
        (iChannelDisp (vec2Add (raycastFinalState s2 FSKR2 C2v FSKR1 C1v
            iChannelDisp invZmin invZmax iRes).s1 half2)).a < 1 / 2 →
        raycasting s2 FSKR2 C2v FSKR1 C1v iChannelCol iChannelDisp
            invZmin invZmax iRes feathering background = ⟨0, 0, 0, 0⟩ := by
  constructor
  · intro tex xy iRes
    simp only [isMaskAround, maskSampleBad, maskOffsets, Bool.or_eq_true,
      decide_eq_true_eq, List.mem_cons, List.mem_singleton, exists_eq_or_imp,
      List.not_mem_nil, false_and, exists_false, or_false, exists_eq_left]
    tauto
  · intro s2 FSKR2 C2v FSKR1 C1v iChannelCol iChannelDisp invZmin invZmax
      iRes feathering background hacc hmask
    simp only [raycasting]
    rw [if_pos hacc, if_pos hmask]

/-- Witness for the amended C7: an accepted ray whose center mask sample is
0 yields the all-zero sample. -/
theorem isMaskAround_dilated_center_mask_witness :
    raycasting ⟨0, 0⟩ mat3One ⟨0, 0, 0⟩ mat3One ⟨0, 0, 0⟩ (fun _ => ⟨1, 1, 1, 1⟩)
        (fun _ => ⟨1, 0, 0, 0⟩) 1 1 ⟨100, 100⟩ (1 / 10) ⟨1 / 4, 1 / 3, 1 / 5, 1⟩
      = ⟨0, 0, 0, 0⟩ :=
  isMaskAround_dilated_center_mask.2 ⟨0, 0⟩ mat3One ⟨0, 0, 0⟩ mat3One ⟨0, 0, 0⟩
    (fun _ => ⟨1, 1, 1, 1⟩) (fun _ => ⟨1, 0, 0, 0⟩) 1 1 ⟨100, 100⟩ (1 / 10)
    ⟨1 / 4, 1 / 3, 1 / 5, 1⟩
    (by
      rw [raycastFinalState_degenerate]
      norm_num)
    (by
      rw [raycastFinalState_degenerate]
      norm_num)
